import Mathlib

/-!
Verification of the citop cache / tree-projection layer.

This file gives a shallow embedding, in Lean 4, of the parts of the
citop repository (package `cache` and its helpers) that the accompanying
specification talks about, and proves or refutes the specification's
claims against that embedding.

Conventions used throughout:
* Go `int` becomes `Int`; list positions are converted with `Int.toNat`
  exactly where the Go code indexes a slice.
* Go `sql.NullTime` / `utils.NullTime` becomes `Option Int` (a timestamp
  is an abstract instant; only presence and ordering matter here).
* Go maps that are only written once and then iterated in sorted key
  order are association lists (`List (Int × α)`); the sorted iteration
  done by the Go code is made explicit.
* Fallible functions return `Except` with a dedicated error type, so
  that distinguished sentinel errors (`ErrNoMatchFound`, a not-found
  condition, ...) stay distinguishable from generic errors.
* A handful of helpers live in the repository's `utils` package, whose
  source is not part of this snapshot; each such definition carries a
  doc comment starting with `Modelled from the spec:` and is translated
  from the specification's description of it.
-/

namespace Citop

/-! ## Domain model: states and status aggregation (cache.go) -/

/-- Build/stage/job state, from the `State` constants of the source
(`Unknown` is the empty string in Go). -/
inductive State where
  | unknown
  | pending
  | running
  | passed
  | failed
  | canceled
  | manual
  | skipped
deriving DecidableEq, Repr

/-- Go `func (s State) IsActive() bool { return s == Pending || s == Running }` -/
def State.IsActive (s : State) : Bool :=
  s == .pending || s == .running

/-- The `statePrecedence` map of the source. Every `State` value is a key
of the Go map, so the lookup never falls back to the zero value. -/
def statePrecedence : State → Int
  | .unknown => 80
  | .running => 70
  | .pending => 60
  | .canceled => 50
  | .failed => 40
  | .passed => 30
  | .skipped => 20
  | .manual => 10

/-- A value of the `Statuser` interface: something exposing a status and
an allowed-failure flag (`Status()` and `AllowedFailure()`). -/
structure Statuser where
  status : State
  allowedFailure : Bool
deriving DecidableEq, Repr

/-- One iteration of the loop body of `AggregateStatuses`. -/
def aggregateStep (state : State) (s : Statuser) : State :=
  if !s.allowedFailure || (s.status != .canceled && s.status != .failed) then
    if statePrecedence s.status > statePrecedence state then s.status else state
  else
    state

/-- Go `func AggregateStatuses(ss []Statuser) State` from the source: return
`Unknown` for an empty slice, otherwise fold the loop body over the whole
slice starting from the first element's status. -/
def AggregateStatuses (ss : List Statuser) : State :=
  match ss with
  | [] => .unknown
  | s0 :: _ => ss.foldl aggregateStep s0.status

/-- The precedence table exactly as the specification sentence lists it:
Unknown 80 > Running 70 > Pending 60 > Canceled 50 > Failed 40 >
Passed 30 > Skipped 20 > Manual 10. -/
def specPrecedence : State → Int
  | .unknown => 80
  | .running => 70
  | .pending => 60
  | .canceled => 50
  | .failed => 40
  | .passed => 30
  | .skipped => 20
  | .manual => 10

/-- The specification's per-child rule, as explicit recursion. -/
def specLoop (acc : State) : List Statuser → State
  | [] => acc
  | c :: cs =>
    if c.allowedFailure = true ∧ (c.status = .canceled ∨ c.status = .failed) then
      specLoop acc cs
    else
      specLoop (if specPrecedence c.status > specPrecedence acc then c.status else acc) cs

/-- The aggregation algorithm as the specification words it: start from
the first child's status; a child that is both allowed-to-fail and
Canceled/Failed is skipped; every other child has its precedence compared
against the running maximum, keeping the higher; empty gives Unknown. -/
def aggregateAsSpecified (ss : List Statuser) : State :=
  match ss with
  | [] => .unknown
  | first :: _ => specLoop first.status ss

theorem specLoop_eq_foldl (l : List Statuser) : ∀ acc : State,
    specLoop acc l = l.foldl aggregateStep acc := by
  induction l with
  | nil => intro acc; rfl
  | cons c cs ih =>
    intro acc
    rw [List.foldl_cons, ← ih]
    rcases c with ⟨st, af⟩
    cases af <;> cases st <;> simp [specLoop, aggregateStep, specPrecedence, statePrecedence]

end Citop

/-- C1: `AggregateStatuses` follows the specification's algorithm exactly:
Unknown on the empty collection, otherwise starting from the first
child's status, skipping children that are both allowed-to-fail and
Canceled/Failed, and keeping the higher precedence (per the table
Unknown 80 > Running 70 > Pending 60 > Canceled 50 > Failed 40 >
Passed 30 > Skipped 20 > Manual 10) for every other child. -/
theorem Citop.C1_aggregate_statuses_follows_spec (ss : List Citop.Statuser) :
    Citop.AggregateStatuses ss = Citop.aggregateAsSpecified ss := by
  cases ss with
  | nil => rfl
  | cons s0 rest =>
    show (s0 :: rest).foldl Citop.aggregateStep s0.status =
      Citop.specLoop s0.status (s0 :: rest)
    rw [Citop.specLoop_eq_foldl]

namespace Citop

/-- A child that passed and is not allowed to fail. -/
def passedChild : Statuser := ⟨.passed, false⟩

/-- A child that was canceled but is allowed to fail. -/
def canceledAllowedChild : Statuser := ⟨.canceled, true⟩

theorem foldl_passed_stays (l : List Statuser)
    (h : ∀ x ∈ l, x = passedChild ∨ x = canceledAllowedChild) :
    l.foldl aggregateStep .passed = .passed := by
  induction l with
  | nil => rfl
  | cons c cs ih =>
    have hc := h c (List.mem_cons_self c cs)
    have hstep : aggregateStep .passed c = .passed := by
      rcases hc with rfl | rfl <;> rfl
    rw [List.foldl_cons, hstep]
    exact ih fun x hx => h x (List.mem_cons_of_mem c hx)

end Citop

/-- C6 counterexample: with the allowed-to-fail Canceled child in the
first position and a single Passed child after it, `AggregateStatuses`
returns Canceled, not Passed — the first child's status seeds the
running maximum even when that child is skipped by the loop, and
Canceled (precedence 50) then beats Passed (precedence 30). -/
theorem Citop.C6_counterexample_first_position :
    Citop.AggregateStatuses [Citop.canceledAllowedChild, Citop.passedChild] =
      Citop.State.canceled ∧ Citop.State.canceled ≠ Citop.State.passed := by
  exact ⟨rfl, by decide⟩

/-- C6 amended: for every collection in which one child is allowed-to-fail
with status Canceled, every other child has status Passed and is not
allowed to fail, and the Canceled child is not in the first position,
`AggregateStatuses` returns Passed, not Canceled. (As stated, the claim
is false when the Canceled child comes first: its status then seeds the
running maximum and the result is Canceled.) -/
theorem Citop.C6_amended_allowed_failure_canceled_ignored
    (pre post : List Citop.Statuser)
    (hpre : pre ≠ [])
    (hpreP : ∀ x ∈ pre, x = Citop.passedChild)
    (hpostP : ∀ x ∈ post, x = Citop.passedChild) :
    Citop.AggregateStatuses (pre ++ Citop.canceledAllowedChild :: post) =
      Citop.State.passed := by
  rcases pre with _ | ⟨p, pre'⟩
  · exact absurd rfl hpre
  · have hp : p = Citop.passedChild := hpreP p (List.mem_cons_self p pre')
    subst hp
    show ((Citop.passedChild :: pre') ++ Citop.canceledAllowedChild :: post).foldl
      Citop.aggregateStep Citop.passedChild.status = Citop.State.passed
    apply Citop.foldl_passed_stays
    intro x hx
    rcases List.mem_cons.mp hx with rfl | hx'
    · exact Or.inl rfl
    rcases List.mem_append.mp hx' with hx2 | hx3
    · exact Or.inl (hpreP x (List.mem_cons_of_mem _ hx2))
    rcases List.mem_cons.mp hx3 with rfl | hx4
    · exact Or.inr rfl
    · exact Or.inl (hpostP x hx4)

/-- Witness for the amended C6 at a concrete input: children
[Passed, Canceled(allowed), Passed] aggregate to Passed. -/
theorem Citop.C6_amended_witness :
    Citop.AggregateStatuses
      [Citop.passedChild, Citop.canceledAllowedChild, Citop.passedChild] =
      Citop.State.passed :=
  Citop.C6_amended_allowed_failure_canceled_ignored
    [Citop.passedChild] [Citop.passedChild] (by decide)
    (by decide) (by decide)

namespace Citop

/-! ## `UpdateFromProviders`: draining the error channel (cache.go)

The drain loop at the end of `UpdateFromProviders` is sequential: it
reads the shared error channel until it is closed and folds each
received value into `(err, notFound)`, calling `cancel()` on any error
other than `nil`/`ErrRepositoryNotFound`.  We embed that loop as a fold
over the arrival sequence of channel values; the goroutine machinery
that produces the sequence is irrelevant to how the overall result is
computed from it. -/

/-- A non-nil error received on the error channel: either the sentinel
`ErrRepositoryNotFound`, or any other error (a provider failure or a
`Cache.Save` failure), tagged by an id so distinct errors stay distinct. -/
inductive CacheErr where
  | notFound
  | other (id : Nat)
deriving DecidableEq, Repr

/-- The loop state of the drain loop: `err` is the Go variable `err`,
`cnt` the Go variable `notFound`, `cancelled` records whether `cancel()`
has been called by the loop. -/
structure DrainState where
  err : Option CacheErr
  cnt : Nat
  cancelled : Bool
deriving DecidableEq, Repr

/-- One iteration of the drain loop of `UpdateFromProviders`, for a
cache with `n` registered providers.  `none` models a `nil` channel
value. -/
def drainStep (n : Nat) (st : DrainState) (e : Option CacheErr) : DrainState :=
  match e with
  | none => st
  | some .notFound =>
    let c := st.cnt + 1
    { st with cnt := c, err := if c = n then some .notFound else st.err }
  | some (.other m) =>
    { st with
      cancelled := true
      err := if st.err = none then some (.other m) else st.err }

/-- The whole drain loop: fold over the sequence of values read from the
error channel, starting from `err = nil`, `notFound = 0`, not cancelled. -/
def drain (n : Nat) (es : List (Option CacheErr)) : DrainState :=
  es.foldl (drainStep n) ⟨none, 0, false⟩

/-- The value `UpdateFromProviders` returns once the channel is drained. -/
def drainResult (n : Nat) (es : List (Option CacheErr)) : Option CacheErr :=
  (drain n es).err

/-- Number of `ErrRepositoryNotFound` values in the arrival sequence. -/
def countNotFound (es : List (Option CacheErr)) : Nat :=
  es.countP (fun e => e = some .notFound)

/-- The first error in the arrival sequence that is neither `nil` nor
`ErrRepositoryNotFound`. -/
def firstOther (es : List (Option CacheErr)) : Option CacheErr :=
  es.findSome? fun e =>
    match e with
    | some (.other m) => some (.other m)
    | _ => none

/-- Whether the arrival sequence contains a non-nil, non-not-found error. -/
def hasOther (es : List (Option CacheErr)) : Bool :=
  es.any fun e =>
    match e with
    | some (.other _) => true
    | _ => false

theorem countNotFound_cons_nf (es : List (Option CacheErr)) :
    countNotFound (some .notFound :: es) = countNotFound es + 1 := by
  simp [countNotFound, List.countP_cons]

theorem countNotFound_cons_nil (es : List (Option CacheErr)) :
    countNotFound (none :: es) = countNotFound es := by
  simp [countNotFound, List.countP_cons]

theorem countNotFound_cons_other (m : Nat) (es : List (Option CacheErr)) :
    countNotFound (some (.other m) :: es) = countNotFound es := by
  simp [countNotFound, List.countP_cons]

theorem drain_characterization (n : Nat) (es : List (Option CacheErr)) :
    ∀ st : DrainState,
      es.foldl (drainStep n) st =
        { err :=
            if st.cnt < n ∧ n ≤ st.cnt + countNotFound es then some .notFound
            else st.err.or (firstOther es)
          cnt := st.cnt + countNotFound es
          cancelled := st.cancelled || hasOther es } := by
  induction es with
  | nil =>
    intro st
    simp only [List.foldl_nil, firstOther, List.findSome?_nil, hasOther, List.any_nil,
      Bool.or_false, Option.or_none, countNotFound, List.countP_nil, Nat.add_zero]
    rw [if_neg (show ¬(st.cnt < n ∧ n ≤ st.cnt) by omega)]
  | cons e es ih =>
    intro st
    rw [List.foldl_cons, ih]
    match e with
    | none =>
      have h2 : firstOther (none :: es) = firstOther es := by
        simp [firstOther, List.findSome?_cons]
      have h3 : hasOther (none :: es) = hasOther es := by simp [hasOther]
      rw [countNotFound_cons_nil, h2, h3]
      rfl
    | some .notFound =>
      have h2 : firstOther (some .notFound :: es) = firstOther es := by
        simp [firstOther, List.findSome?_cons]
      have h3 : hasOther (some .notFound :: es) = hasOther es := by simp [hasOther]
      rw [countNotFound_cons_nf, h2, h3]
      simp only [drainStep, DrainState.mk.injEq]
      refine ⟨?_, by omega, by trivial⟩
      by_cases hn : st.cnt + 1 = n
      · rw [if_pos hn]
        have hcondR : st.cnt < n ∧ n ≤ st.cnt + (countNotFound es + 1) := by omega
        rw [if_pos hcondR]
        by_cases hcondL : st.cnt + 1 < n ∧ n ≤ st.cnt + 1 + countNotFound es
        · rw [if_pos hcondL]
        · rw [if_neg hcondL]; rfl
      · rw [if_neg hn]
        by_cases hc : st.cnt < n ∧ n ≤ st.cnt + (countNotFound es + 1)
        · have hcl : st.cnt + 1 < n ∧ n ≤ st.cnt + 1 + countNotFound es := by omega
          rw [if_pos hcl, if_pos hc]
        · have hcl : ¬(st.cnt + 1 < n ∧ n ≤ st.cnt + 1 + countNotFound es) := by omega
          rw [if_neg hcl, if_neg hc]
    | some (.other m) =>
      have h2 : firstOther (some (.other m) :: es) = some (.other m) := by
        simp [firstOther, List.findSome?_cons]
      have h3 : hasOther (some (.other m) :: es) = true := by simp [hasOther]
      rw [countNotFound_cons_other, h2, h3]
      simp only [drainStep, DrainState.mk.injEq, Bool.or_true, Bool.true_or]
      refine ⟨?_, by trivial, by trivial⟩
      by_cases hc : st.cnt < n ∧ n ≤ st.cnt + countNotFound es
      · rw [if_pos hc, if_pos hc]
      · rw [if_neg hc, if_neg hc]
        match h : st.err with
        | none => rfl
        | some x => rfl

end Citop

/-- C2 counterexample: with 2 registered providers and the arrival
sequence [generic error, not-found, not-found], a non-not-found error was
received, yet the overall result of the drain loop is the repository-not-
found sentinel, not that first generic error — when the not-found count
reaches the provider count, `err` is overwritten unconditionally. The
claim's "any other error ... becomes the overall result, with only the
first such error retained" therefore fails on this sequence. -/
theorem Citop.C2_counterexample_not_found_overwrites :
    Citop.drainResult 2
        [some (Citop.CacheErr.other 0), some Citop.CacheErr.notFound,
          some Citop.CacheErr.notFound] = some Citop.CacheErr.notFound ∧
      Citop.hasOther
        [some (Citop.CacheErr.other 0), some Citop.CacheErr.notFound,
          some Citop.CacheErr.notFound] = true ∧
      Citop.drainResult 2
        [some (Citop.CacheErr.other 0), some Citop.CacheErr.notFound,
          some Citop.CacheErr.notFound] ≠ some (Citop.CacheErr.other 0) := by
  refine ⟨rfl, rfl, by decide⟩

/-- C2 amended: when the drain loop of `UpdateFromProviders` processes
the arrival sequence of per-provider terminal errors, nil errors are
ignored; the repository-not-found sentinel becomes the overall result if
and only if at least `n` not-found reports arrive (with `n ≥ 1` the
number of registered providers, each of which reports it at most once —
so, exactly when every provider reported it), and in that case it is the
result even if a generic error was also received; otherwise the first
generic error (including a Save failure for a streamed build) becomes
the overall result, or nil if there is none; and cancellation of the
shared sub-context is triggered exactly when some generic error arrives. -/
theorem Citop.C2_amended_drain_semantics (n : Nat) (es : List (Option Citop.CacheErr)) :
    Citop.drainResult n es =
        (if 0 < n ∧ n ≤ Citop.countNotFound es then some Citop.CacheErr.notFound
          else Citop.firstOther es) ∧
      (Citop.drain n es).cancelled = Citop.hasOther es := by
  have h := Citop.drain_characterization n es ⟨none, 0, false⟩
  unfold Citop.drainResult Citop.drain
  rw [h]
  refine ⟨?_, by simp⟩
  show (if (0:Nat) < n ∧ n ≤ 0 + Citop.countNotFound es then some Citop.CacheErr.notFound
    else Option.or none (Citop.firstOther es)) = _
  simp only [Nat.zero_add]
  by_cases hc : 0 < n ∧ n ≤ Citop.countNotFound es
  · rw [if_pos hc, if_pos hc]
  · rw [if_neg hc, if_neg hc]
    rfl

/-- Witness for the amended C2: one provider of two reports not-found and
the other succeeds (nil error): the overall result is nil and no
cancellation happens; and with a generic error in the stream the first
generic error wins and cancellation is triggered. -/
theorem Citop.C2_amended_witness :
    Citop.drainResult 2 [some Citop.CacheErr.notFound, none] = none ∧
      (Citop.drain 2 [some Citop.CacheErr.notFound, none]).cancelled = false ∧
      Citop.drainResult 2
        [some Citop.CacheErr.notFound, some (Citop.CacheErr.other 3),
          some (Citop.CacheErr.other 4)] = some (Citop.CacheErr.other 3) ∧
      (Citop.drain 2
        [some Citop.CacheErr.notFound, some (Citop.CacheErr.other 3),
          some (Citop.CacheErr.other 4)]).cancelled = true := by
  have h1 := Citop.C2_amended_drain_semantics 2 [some Citop.CacheErr.notFound, none]
  have h2 := Citop.C2_amended_drain_semantics 2
    [some Citop.CacheErr.notFound, some (Citop.CacheErr.other 3),
      some (Citop.CacheErr.other 4)]
  refine ⟨?_, ?_, ?_, ?_⟩
  · rw [h1.1]; decide
  · rw [h1.2]; decide
  · rw [h2.1]; decide
  · rw [h2.2]; decide

namespace Citop

/-! ## Tree projection: `buildRow` and its traversals (repository_builds.go)

The Go `buildRow` is a recursive struct; here it is an inductive whose
payload lives in `RowInfo` (the Go field `prefix` is called `pfx`).  Keys
are typed (`buildRowKey`), so the runtime type assertions Go performs on
`interface{}` keys have no counterpart; the source paths returning
"casting key ... failed" errors are unreachable in this embedding. -/

/-- The 4-tuple identity of a row: `(accountID, buildID, stageID, jobID)`,
with `stageID`/`jobID` zero when not applicable. -/
structure buildRowKey where
  accountID : String
  buildID : Int
  stageID : Int
  jobID : Int
deriving DecidableEq, Repr, Inhabited

/-- The non-recursive fields of a `buildRow`. -/
structure RowInfo where
  key : buildRowKey
  id : String
  type_ : String
  state : String
  name : String
  pfx : String
  startedAt : Option Int
  finishedAt : Option Int
  updatedAt : Option Int
  traversable : Bool
  url : String
deriving DecidableEq, Repr, Inhabited

/-- Go `buildRow`: a tree node mirroring one Build ("P"), Stage ("S") or
Job ("J"), with its ordered children. -/
inductive buildRow where
  | mk (info : RowInfo) (children : List buildRow)

def buildRow.info : buildRow → RowInfo
  | .mk i _ => i

def buildRow.children : buildRow → List buildRow
  | .mk _ cs => cs

def buildRow.key (r : buildRow) : buildRowKey := r.info.key

/-- Go `func (b buildRow) Traversable() bool`. -/
def buildRow.Traversable (r : buildRow) : Bool := r.info.traversable

instance : Inhabited buildRow := ⟨.mk default []⟩

mutual
def rowBEq : buildRow → buildRow → Bool
  | .mk i cs, .mk i2 cs2 => i == i2 && rowsBEq cs cs2
def rowsBEq : List buildRow → List buildRow → Bool
  | [], [] => true
  | r :: rs, r2 :: rs2 => rowBEq r r2 && rowsBEq rs rs2
  | _, _ => false
end

mutual
theorem rowBEq_refl : ∀ r : buildRow, rowBEq r r = true
  | .mk i cs => by simp [rowBEq, rowsBEq_refl cs]
theorem rowsBEq_refl : ∀ rs : List buildRow, rowsBEq rs rs = true
  | [] => by simp [rowsBEq]
  | r :: rs => by simp [rowsBEq, rowBEq_refl r, rowsBEq_refl rs]
end

mutual
theorem rowBEq_eq : ∀ r r2 : buildRow, rowBEq r r2 = true → r = r2
  | .mk i cs, .mk i2 cs2 => by
    simp only [rowBEq, Bool.and_eq_true, beq_iff_eq]
    rintro ⟨rfl, h⟩
    rw [rowsBEq_eq cs cs2 h]
theorem rowsBEq_eq : ∀ rs rs2 : List buildRow, rowsBEq rs rs2 = true → rs = rs2
  | [], [] => by simp
  | [], _ :: _ => by simp [rowsBEq]
  | _ :: _, [] => by simp [rowsBEq]
  | r :: rs, r2 :: rs2 => by
    simp only [rowsBEq, Bool.and_eq_true]
    rintro ⟨h1, h2⟩
    rw [rowBEq_eq r r2 h1, rowsBEq_eq rs rs2 h2]
end

instance : DecidableEq buildRow := fun r r2 =>
  if h : rowBEq r r2 = true then .isTrue (rowBEq_eq r r2 h)
  else .isFalse (fun he => h (he ▸ rowBEq_refl r))

/-- Structural induction principle for the nested inductive. -/
theorem buildRow_ind (P : buildRow → Prop)
    (h : ∀ info children, (∀ c ∈ children, P c) → P (.mk info children)) : ∀ r, P r := by
  have aux : ∀ n (r : buildRow), sizeOf r ≤ n → P r := by
    intro n
    induction n with
    | zero => intro r hr; cases r with | mk i cs => simp at hr
    | succ n ih =>
      intro r hr
      cases r with
      | mk i cs =>
        apply h
        intro c hc
        have := List.sizeOf_lt_of_mem hc
        simp at hr
        apply ih
        omega
  exact fun r => aux (sizeOf r) r le_rfl

mutual
/-- Modelled from the spec: `utils.DepthFirstTraversal(node, traverseAll)`
(the `utils` package is not part of this source snapshot) lists the node
followed by the depth-first traversal of its children; when `traverseAll`
is false only children of nodes whose traversable flag is set are
visited — a node whose parent is collapsed is excluded even if the node
itself is marked traversable (spec §4.2). -/
def depthFirstTraversal (traverseAll : Bool) : buildRow → List buildRow
  | .mk i cs =>
    .mk i cs ::
      (if traverseAll || i.traversable then depthFirstTraversalList traverseAll cs else [])
def depthFirstTraversalList (traverseAll : Bool) : List buildRow → List buildRow
  | [] => []
  | r :: rs => depthFirstTraversal traverseAll r ++ depthFirstTraversalList traverseAll rs
end

/-! ## The cache's side of the projection (cache.go)

`Build`/`Stage`/`Job` as the projection uses them.  In Go, `Stage` and
`Job` reach their owning build through back-pointers
(`s.Build.Repository.AccountID`, `j.Build.ID`, `j.Stage.ID`); under the
cache's ownership invariant those pointers name the containing
structures, so the embedding passes the owner's identifiers down
explicitly.  Go maps iterated in `sort.Ints` key order become
association lists plus an explicit sort of the keys. -/

/-- A cached job (`cache.Job`), restricted to the fields the projection
and the log export read. -/
structure CJob where
  id : Int
  state : State
  name : String
  createdAt : Option Int
  startedAt : Option Int
  finishedAt : Option Int
  webURL : String
deriving DecidableEq, Repr

/-- A cached stage (`cache.Stage`). -/
structure CStage where
  id : Int
  name : String
  state : State
  jobs : List (Int × CJob)
deriving DecidableEq, Repr

/-- A cached build (`cache.Build`); `accountID` stands for
`b.Repository.AccountID`, `updatedAt` is always present (Go
`time.Time`). -/
structure CBuild where
  accountID : String
  id : Int
  commitMessage : String
  state : State
  startedAt : Option Int
  finishedAt : Option Int
  updatedAt : Int
  webURL : String
  jobs : List (Int × CJob)
  stages : List (Int × CStage)
deriving DecidableEq, Repr

/-- The Go `string(state)` conversion: the `State` constants of the
source. -/
def stateString : State → String
  | .unknown => ""
  | .pending => "pending"
  | .running => "running"
  | .passed => "passed"
  | .failed => "failed"
  | .canceled => "canceled"
  | .manual => "manual"
  | .skipped => "skipped"

def insertSortedInt (x : Int) : List Int → List Int
  | [] => [x]
  | y :: ys => if x ≤ y then x :: y :: ys else y :: insertSortedInt x ys

/-- Go `sort.Ints`: ascending sort of collected map keys. -/
def sortInts : List Int → List Int
  | [] => []
  | x :: xs => insertSortedInt x (sortInts xs)

/-- Lookup in an association list standing for a Go map. -/
def lookupA {α : Type} (l : List (Int × α)) (k : Int) : Option α :=
  (l.find? fun p => p.1 == k).map (·.2)

/-- The values of a Go map in ascending key order, as the
`collect IDs; sort.Ints; index` pattern of the source produces them. -/
def sortedValues {α : Type} (m : List (Int × α)) : List α :=
  (sortInts (m.map (·.1))).filterMap (lookupA m)

/-- Modelled from the spec: `utils.Coalesce` returns the first present
value among its arguments (§3: a job's last-activity timestamp is "the
first present value among finished/started/created"). -/
def Coalesce (a b c : Option Int) : Option Int := (a.or b).or c

/-- Go `func buildRowFromJob(j Job) buildRow`; `accountID`, `buildID` and
`stageID` are what the Go code reads through `j.Build` and `j.Stage`
(zero when the job hangs directly off the build). -/
def buildRowFromJob (accountID : String) (buildID : Int) (stageID : Int) (j : CJob) : buildRow :=
  .mk
    { key := ⟨accountID, buildID, stageID, j.id⟩
      id := ""
      type_ := "J"
      state := stateString j.state
      name := j.name
      pfx := ""
      startedAt := j.startedAt
      finishedAt := j.finishedAt
      updatedAt := Coalesce j.finishedAt j.startedAt j.createdAt
      traversable := false
      url := j.webURL }
    []

/-- Go `func buildRowFromStage(s Stage) buildRow`. -/
def buildRowFromStage (accountID : String) (buildID : Int) (s : CStage) : buildRow :=
  .mk
    { key := ⟨accountID, buildID, s.id, 0⟩
      id := ""
      type_ := "S"
      state := stateString s.state
      name := s.name
      pfx := ""
      startedAt := none
      finishedAt := none
      updatedAt := none
      traversable := false
      url := "" }
    ((sortedValues s.jobs).map (buildRowFromJob accountID buildID s.id))

/-- Go `func buildRowFromBuild(b Build) buildRow`: the name is the first
line of the commit message; the children are the build's direct jobs in
ascending job-ID order followed by its stages in ascending stage-ID
order. -/
def buildRowFromBuild (b : CBuild) : buildRow :=
  .mk
    { key := ⟨b.accountID, b.id, 0, 0⟩
      id := ""
      type_ := "P"
      state := stateString b.state
      name := (b.commitMessage.splitOn "\n").headD ""
      pfx := ""
      startedAt := b.startedAt
      finishedAt := b.finishedAt
      updatedAt := some b.updatedAt
      traversable := false
      url := b.webURL }
    ((sortedValues b.jobs).map (buildRowFromJob b.accountID b.id 0) ++
      (sortedValues b.stages).map (buildRowFromStage b.accountID b.id))

/-- The comparison `FetchRows` hands to `sort.Slice`: strictly more
recently updated, and only when both timestamps are present (the spec
leaves the order unspecified otherwise). -/
def rowsLess (x y : buildRow) : Bool :=
  x.info.updatedAt.isSome && y.info.updatedAt.isSome &&
    x.info.updatedAt.getD 0 > y.info.updatedAt.getD 0

def insertRowSorted (r : buildRow) : List buildRow → List buildRow
  | [] => [r]
  | y :: ys => if rowsLess y r then y :: insertRowSorted r ys else r :: y :: ys

/-- The `sort.Slice` call of `FetchRows` (`sort.Slice` fixes no
particular order beyond the comparator; insertion sort realizes one). -/
def sortRows : List buildRow → List buildRow
  | [] => []
  | r :: rs => insertRowSorted r (sortRows rs)

/-- The keys whose traversable flag is set, over a full traversal of the
whole forest — the `traversables` map `FetchRows` builds first. -/
def collectTraversables (rows : List buildRow) : List buildRowKey :=
  (depthFirstTraversalList true rows).filterMap fun r =>
    if r.Traversable then some r.key else none

mutual
/-- The restoration pass of `FetchRows`: while indexing the new forest it
sets the traversable flag of every node whose key is in the recorded
`traversables` map (the map only ever holds `true` entries). -/
def restoreRow (tr : List buildRowKey) : buildRow → buildRow
  | .mk i cs =>
    .mk (if tr.contains i.key then { i with traversable := true } else i)
      (restoreRowList tr cs)
def restoreRowList (tr : List buildRowKey) : List buildRow → List buildRow
  | [] => []
  | r :: rs => restoreRow tr r :: restoreRowList tr rs
end

/-- Go `func (s *RepositoryBuilds) FetchRows()`: record the traversable
keys of the current forest, rebuild one row tree per cached build, sort
the forest by descending updated time, and re-apply the recorded flags
by key.  The cache snapshot `s.cache.Builds()` is the `builds`
argument. -/
def FetchRows (oldRows : List buildRow) (builds : List CBuild) : List buildRow :=
  restoreRowList (collectTraversables oldRows) (sortRows (builds.map buildRowFromBuild))

/-- The traversable flag of the (first) node with the given key in a
full traversal of the forest, if any. -/
def flagAt (rows : List buildRow) (k : buildRowKey) : Option Bool :=
  (depthFirstTraversalList true rows).findSome? fun r =>
    if r.key = k then some r.Traversable else none

mutual
/-- Go `func (s *RepositoryBuilds) SetTraversable(key, traversable, false)`
(non-recursive form): set the flag of the node with the given key.  Go
finds the node through `treeIndex` and mutates it in place; the
functional rendering updates every node carrying that key, which is the
same thing when keys are unique in the forest. -/
def setTraversable (k : buildRowKey) (v : Bool) : buildRow → buildRow
  | .mk i cs =>
    .mk (if i.key = k then { i with traversable := v } else i)
      (setTraversableList k v cs)
def setTraversableList (k : buildRowKey) (v : Bool) : List buildRow → List buildRow
  | [] => []
  | r :: rs => setTraversable k v r :: setTraversableList k v rs
end

/-! ## Flattened view, windowed selection and circular search
(repository_builds.go)

The Go struct memoizes `dfsTraversal`/`dfsIndex` behind the
`dfsUpToDate` flag and rebuilds them in `prefixAndIndex` whenever a
query runs on a stale view; the embedding computes the flattened view
from `rows` functionally at each query, which is what every query
observes. -/

mutual
/-- Modelled from the spec: `utils.DepthFirstTraversalPrefixing` gives
every visible node a tree-drawing `pfx` string reflecting its depth and
whether it is the last of its siblings (§4.2); children of a collapsed
node are left untouched.  The concrete glyphs are not specified by the
spec and no claim depends on them; they are modelled as "├ "/"└ "
markers over "│ "/"  " continuations. -/
def decorateNode (pfx cont : String) : buildRow → buildRow
  | .mk i cs =>
    .mk { i with pfx := pfx } (if i.traversable then decorateChildren cont cs else cs)
def decorateChildren (cont : String) : List buildRow → List buildRow
  | [] => []
  | [r] => [decorateNode (cont ++ "└ ") (cont ++ "  ") r]
  | r :: r2 :: rs =>
    decorateNode (cont ++ "├ ") (cont ++ "│ ") r :: decorateChildren cont (r2 :: rs)
end

/-- The body of `prefixAndIndex`: for each top-level row, assign the
tree-drawing pfx strings, then append the visibility-filtered
depth-first traversal to the flattened sequence. -/
def flattenedRows : List buildRow → List buildRow
  | [] => []
  | r :: rs => depthFirstTraversal false (decorateNode "" "" r) ++ flattenedRows rs

/-- Go `s.dfsIndex`: the position of the node with the given key in the
flattened view.  The Go map is filled in traversal order with later
entries overwriting earlier ones, hence the last occurrence wins. -/
def indexOfKey : List buildRow → buildRowKey → Option Nat
  | [], _ => none
  | r :: rs, k =>
    match indexOfKey rs k with
    | some i => some (i + 1)
    | none => if r.key = k then some 0 else none

/-- Go `s.dfsIndex[k]` as the Go code reads it inside `NextMatch`: a missing
key yields the map's zero value. -/
def dfsIdx (dfsT : List buildRow) (k : buildRowKey) : Int :=
  ((indexOfKey dfsT k).getD 0 : Nat)

/-- Modelled from the spec: `utils.Bounded(x, lower, upper)` clamps `x`
into `[lower, upper]` (§4.3 "clamp the ideal window ... to `[0, len)`";
`Select` passes `0` and `len(s.dfsTraversal)` as the bounds). -/
def Bounded (x lower upper : Int) : Int := max lower (min x upper)

/-- Modelled from the spec: `utils.Modulo(a, b)` is the non-negative
remainder used for circular wrap-around (§4.4); for `b > 0` Lean's `%`
on `Int` is exactly that. -/
def Modulo (a b : Int) : Int := a % b

/-- Modelled from the spec: `utils.MaxInt`. -/
def MaxInt (a b : Int) : Int := max a b

/-- Modelled from the spec: `utils.MinInt`. -/
def MinInt (a b : Int) : Int := min a b

/-- Modelled from the spec: `utils.ElapsedSince` renders a present
timestamp as an elapsed-time string (§6 "each elapsed-time-formatted");
the exact rendering is immaterial to every claim and is modelled as the
decimal value. -/
def ElapsedSince (t : Int) : String := toString t

/-- The `nullTimeToString` closure of `buildRow.Tabular`. -/
def nullTimeToString : Option Int → String
  | some t => ElapsedSince t
  | none => "-"

/-- Whether the first list starts with the second (empty needle always
matches). -/
def startsWithChars : List Char → List Char → Bool
  | _, [] => true
  | [], _ :: _ => false
  | c :: cs, d :: ds => c == d && startsWithChars cs ds

/-- Whether the needle occurs contiguously in the haystack. -/
def containsChars (needle : List Char) : List Char → Bool
  | [] => needle.isEmpty
  | c :: rest => startsWithChars (c :: rest) needle || containsChars needle rest

/-- Go `strings.Contains(hay, sub)`: substring test (true for the empty
substring). -/
def strContains (hay sub : String) : Bool :=
  containsChars sub.data hay.data

/-- Go `func (b buildRow) Tabular() map[string]string`: the displayed
column values.  The Go map iteration order is irrelevant here: searching
only asks whether some value matches. -/
def Tabular (b : buildRow) : List (String × String) :=
  [("ACCOUNT", b.key.accountID),
   ("STATE", b.info.state),
   (" NAME", b.info.pfx ++ b.info.name),
   ("BUILD", toString b.key.buildID),
   ("STAGE", toString b.key.stageID),
   ("JOB", toString b.key.jobID),
   ("TYPE", b.info.type_),
   ("ID", b.info.id),
   ("STARTED", nullTimeToString b.info.startedAt),
   ("FINISHED", nullTimeToString b.info.finishedAt),
   ("UPDATED", nullTimeToString b.info.updatedAt)]

/-- The errors `Select`/`NextMatch` can produce in the typed embedding
(`ErrNoMatchFound` is the distinguished sentinel of the source; the
"casting key ... failed" paths are unreachable with typed keys). -/
inductive SelectErr where
  | keyNotFound
  | noMatchFound
deriving DecidableEq, Repr

/-- The three candidate keys `Select` tries in order: the key itself,
its stage-level parent (jobID zeroed), its build-level parent (jobID and
stageID zeroed). -/
def candidateKeys (k : buildRowKey) : List buildRowKey :=
  [k, { k with jobID := 0 }, { k with stageID := 0, jobID := 0 }]

/-- The resolution loop of `Select`: the first candidate present in
`dfsIndex` wins. -/
def resolveFirst (dfsT : List buildRow) : List buildRowKey → Option Nat
  | [] => none
  | k :: ks =>
    match indexOfKey dfsT k with
    | some i => some i
    | none => resolveFirst dfsT ks

/-- The window computation of `Select` once the anchor has resolved to
`keyIndex`: clamp, then re-derive the lower bound from the clamped upper
bound so the window shifts instead of shrinking, and slice
`dfsTraversal[lower:upper]`.  The relative index is computed in Go by
comparing each selected row pointer against `s.dfsTraversal[keyIndex]`;
traversal entries are distinct pointers, so the comparison holds exactly
at position `keyIndex - lower` when that lies inside the window (and the
Go variable keeps its zero value otherwise). -/
def selectWindow (dfsT : List buildRow) (keyIndex : Nat) (nbrBefore nbrAfter : Int) :
    List buildRow × Nat :=
  let n : Int := dfsT.length
  let ki : Int := keyIndex
  let lower := Bounded (ki - nbrBefore) 0 n
  let upper := Bounded (lower + nbrBefore + nbrAfter + 1) 0 n
  let lower2 := Bounded (upper - (nbrBefore + nbrAfter + 1)) 0 n
  ((dfsT.drop lower2.toNat).take (upper - lower2).toNat,
    if lower2 ≤ ki ∧ ki < upper then (ki - lower2).toNat else 0)

/-- Go `func (s *RepositoryBuilds) Select(key, nbrBefore, nbrAfter)`. -/
def Select (rows : List buildRow) (key : buildRowKey) (nbrBefore nbrAfter : Int) :
    Except SelectErr (List buildRow × Nat) :=
  if (flattenedRows rows).length = 0 then .ok ([], 0)
  else
    match resolveFirst (flattenedRows rows) (candidateKeys key) with
    | none => .error .keyNotFound
    | some keyIndex => .ok (selectWindow (flattenedRows rows) keyIndex nbrBefore nbrAfter)

/-- The per-row match test of `NextMatch`: some displayed column value
contains the search string. -/
def rowMatches (search : String) (r : buildRow) : Bool :=
  (Tabular r).any fun kv => strContains kv.2 search

/-- The step function of the scan loop of `NextMatch`. -/
def nmStep (n : Int) (ascending : Bool) (i : Int) : Int :=
  if ascending then Modulo (i + 1) n else Modulo (i - 1) n

/-- The starting position of the scan loop of `NextMatch`. -/
def nmStart (a n : Int) (ascending : Bool) : Int :=
  if ascending then Modulo (a + 1) n else Modulo (a - 1) n

/-- The scan loop `for i := start; i != dfsIndex[active]; i = next(i)`
of `NextMatch`.  The loop needs at most `len(dfsTraversal)` iterations
to come back to the active position, which bounds the fuel; on the empty
view the Go code would divide by zero in `Modulo` where this model
returns no match. -/
def scanLoop (dfsT : List buildRow) (search : String) (stop : Int) (step : Int → Int) :
    Nat → Int → Option Int
  | 0, _ => none
  | fuel + 1, i =>
    if i = stop then none
    else if rowMatches search (dfsT.getD i.toNat default) then some i
    else scanLoop dfsT search stop step fuel (step i)

/-- The match branch of `NextMatch` for a match at flattened position
`i`: `nbrRows` is the previous window size; past the active row the
window's bottom then top are pushed down by `max`, before it the top
then bottom are pulled up by `min`; the result is handed to `Select`. -/
def nextMatchResult (rows : List buildRow) (top bottom active : buildRowKey) (i : Int) :
    Except SelectErr (List buildRow × Nat) :=
  let dfsT := flattenedRows rows
  let a := dfsIdx dfsT active
  let row := dfsT.getD i.toNat default
  let nbrRows := dfsIdx dfsT bottom - dfsIdx dfsT top + 1
  if i > a then
    let maxIndex := MaxInt (dfsIdx dfsT bottom) i
    let minIndex := MaxInt (dfsIdx dfsT top) (maxIndex - nbrRows + 1)
    Select rows row.key (i - minIndex) (maxIndex - i)
  else
    let minIndex := MinInt (dfsIdx dfsT top) i
    let maxIndex := MinInt (dfsIdx dfsT bottom) (minIndex + nbrRows - 1)
    Select rows row.key (i - minIndex) (maxIndex - i)

/-- Go `func (s *RepositoryBuilds) NextMatch(top, bottom, active, search,
ascending)`: circular scan from just past the active row; on a match at
position `i`, recompute the window from the previous window size and
hand off to `Select`. -/
def NextMatch (rows : List buildRow) (top bottom active : buildRowKey)
    (search : String) (ascending : Bool) : Except SelectErr (List buildRow × Nat) :=
  let dfsT := flattenedRows rows
  let n : Int := dfsT.length
  let a := dfsIdx dfsT active
  match scanLoop dfsT search a (nmStep n ascending) dfsT.length (nmStart a n ascending) with
  | none => .error .noMatchFound
  | some i => nextMatchResult rows top bottom active i

/-! ## Log export: `WriteToDirectory` (repository_builds.go) -/

/-- Go `cache.JobKey` as `WriteToDirectory` builds it from a row key. -/
structure JobKey where
  accountID : String
  buildID : Int
  stageID : Int
  id : Int
deriving DecidableEq, Repr

/-- Go `s.treeIndex[buildKey]`: the forest-wide key-to-node index; it is
built by full traversal with later nodes overwriting earlier ones, so
the last node in traversal order wins. -/
def treeIndexLookup (rows : List buildRow) (k : buildRowKey) : Option buildRow :=
  (depthFirstTraversalList true rows).reverse.findSome? fun r =>
    if r.key = k then some r else none

/-- The job-collection loop of `WriteToDirectory`: every node of type
"J" in a full traversal of the subtree, visibility ignored. -/
def collectJobKeys (root : buildRow) : List JobKey :=
  (depthFirstTraversal true root).filterMap fun r =>
    if r.info.type_ = "J" then
      some ⟨r.key.accountID, r.key.buildID, r.key.stageID, r.key.jobID⟩
    else none

/-- Go `Cache.fetchBuild`: the build stored under `(accountID, buildID)`. -/
def fetchBuild (cache : List CBuild) (accountID : String) (buildID : Int) : Option CBuild :=
  cache.find? fun b => b.accountID == accountID && b.id == buildID

/-- Go `func (b Build) Get(stageID, jobID)`: the job map is the build's own
jobs when `stageID == 0`, else the named stage's jobs. -/
def CBuild.get (b : CBuild) (stageID jobID : Int) : Option CJob :=
  if stageID = 0 then lookupA b.jobs jobID
  else
    match lookupA b.stages stageID with
    | none => none
    | some st => lookupA st.jobs jobID

/-- Go `Cache.fetchJob` lifted to a `JobKey`. -/
def fetchJob (cache : List CBuild) (k : JobKey) : Option CJob :=
  match fetchBuild cache k.accountID k.buildID with
  | none => none
  | some b => b.get k.stageID k.id

/-- Modelled from the spec: `Cache.FetchJobs` (not in this source
snapshot) resolves each collected job key against the cache — §4.5
partitions the jobs "by their currently cached status"; keys that no
longer resolve contribute nothing. -/
def FetchJobs (cache : List CBuild) (ks : List JobKey) : List CJob :=
  ks.filterMap (fetchJob cache)

/-- The outcome of `WriteToDirectory`, keeping what the claims observe:
the created file paths and whether the deferred streaming action is
non-absent, or which kind of failure occurred. -/
inductive WTDResult where
  | keyError
  | logError
  | ok (paths : List String) (streamPresent : Bool)
deriving DecidableEq, Repr

/-- The destination file created for a job (`ioutil.TempFile` with
pattern `job_<id>_*.log`; the random component is immaterial and the
creation is assumed to succeed). -/
def jobPath (j : CJob) : String := "job_" ++ toString j.id ++ "_.log"

/-- Go `func (s RepositoryBuilds) WriteToDirectory(ctx, key, dir)`.
`Cache.WriteLogs` is not in this source snapshot; modelled from the
spec, it synchronously resolves and writes every finished job's log and
fails the whole call if any single fetch fails — the per-job fetch
outcome is abstracted into the `logOk` oracle.  The deferred streaming
action is non-nil exactly when the active-job map is non-empty. -/
def WriteToDirectory (cache : List CBuild) (rows : List buildRow) (logOk : CJob → Bool)
    (key : buildRowKey) : WTDResult :=
  match treeIndexLookup rows key with
  | none => .keyError
  | some build =>
    let jobs := FetchJobs cache (collectJobKeys build)
    let paths := jobs.map jobPath
    let activeJobs := jobs.filter fun j => j.state.IsActive
    let finishedJobs := jobs.filter fun j => !j.state.IsActive
    if finishedJobs.all logOk then .ok paths (!activeJobs.isEmpty)
    else .logError

end Citop

namespace Citop

instance {ε α : Type} [DecidableEq ε] [DecidableEq α] : DecidableEq (Except ε α)
  | .ok x, .ok y =>
    if h : x = y then .isTrue (by rw [h]) else .isFalse (by intro he; cases he; exact h rfl)
  | .error x, .error y =>
    if h : x = y then .isTrue (by rw [h]) else .isFalse (by intro he; cases he; exact h rfl)
  | .ok _, .error _ => .isFalse (by intro h; cases h)
  | .error _, .ok _ => .isFalse (by intro h; cases h)

/-! ## Lemmas about key resolution and the window arithmetic -/

theorem indexOfKey_lt_length (l : List buildRow) (k : buildRowKey) :
    ∀ i, indexOfKey l k = some i → i < l.length := by
  induction l with
  | nil => intro i h; simp [indexOfKey] at h
  | cons r rs ih =>
    intro i h
    unfold indexOfKey at h
    cases hrec : indexOfKey rs k with
    | some j =>
      rw [hrec] at h
      cases h
      have := ih j hrec
      simp only [List.length_cons]
      omega
    | none =>
      rw [hrec] at h
      by_cases hk : r.key = k
      · rw [if_pos hk] at h
        cases h
        simp only [List.length_cons]
        omega
      · rw [if_neg hk] at h
        cases h

theorem resolveFirst_lt_length (dfsT : List buildRow) (ks : List buildRowKey) :
    ∀ i, resolveFirst dfsT ks = some i → i < dfsT.length := by
  induction ks with
  | nil => intro i h; simp [resolveFirst] at h
  | cons k ks ih =>
    intro i h
    unfold resolveFirst at h
    cases hk : indexOfKey dfsT k with
    | some j => rw [hk] at h; cases h; exact indexOfKey_lt_length dfsT k _ hk
    | none => rw [hk] at h; exact ih i h

theorem selectWindow_spec (dfsT : List buildRow) (ki : Nat) (b a : Int)
    (hb : 0 ≤ b) (ha : 0 ≤ a) (hki : ki < dfsT.length) :
    ∃ L U : Int,
      selectWindow dfsT ki b a =
        ((dfsT.drop L.toNat).take (U - L).toNat, ((ki : Int) - L).toNat) ∧
      0 ≤ L ∧ L ≤ (ki : Int) ∧ (ki : Int) < U ∧ U ≤ (dfsT.length : Int) ∧
      U - L = min (b + a + 1) (dfsT.length : Int) ∧
      (0 ≤ (ki : Int) - b ∧ (ki : Int) + a < (dfsT.length : Int) →
        L = (ki : Int) - b ∧ U = (ki : Int) + a + 1) := by
  have hki2 : (ki : Int) < (dfsT.length : Int) := by exact_mod_cast hki
  have hki0 : (0 : Int) ≤ (ki : Int) := Int.ofNat_nonneg ki
  simp only [selectWindow, Bounded]
  set n : Int := (dfsT.length : Int) with hn
  set lower := max 0 (min ((ki : Int) - b) n) with hlower
  set upper := max 0 (min (lower + b + a + 1) n) with hupper
  set lower2 := max 0 (min (upper - (b + a + 1)) n) with hlower2
  have hcond : lower2 ≤ (ki : Int) ∧ (ki : Int) < upper := by omega
  exact ⟨lower2, upper, by rw [if_pos hcond], by omega, by omega, by omega, by omega,
    by omega, fun h => ⟨by omega, by omega⟩⟩

end Citop

namespace Citop

theorem resolveFirst_cons_some (dfsT : List buildRow) (k : buildRowKey) (ks : List buildRowKey)
    (i : Nat) (h : indexOfKey dfsT k = some i) :
    resolveFirst dfsT (k :: ks) = some i := by
  show (match indexOfKey dfsT k with
    | some i => some i
    | none => resolveFirst dfsT ks) = some i
  rw [h]

theorem resolveFirst_cons_none (dfsT : List buildRow) (k : buildRowKey) (ks : List buildRowKey)
    (h : indexOfKey dfsT k = none) :
    resolveFirst dfsT (k :: ks) = resolveFirst dfsT ks := by
  show (match indexOfKey dfsT k with
    | some i => some i
    | none => resolveFirst dfsT ks) = resolveFirst dfsT ks
  rw [h]

end Citop

/-- C3: when the anchor key resolves to index `idx` in a non-empty
flattened view and the requested margins are non-negative,
`Select(key, nbrBefore, nbrAfter)` returns the rows of a window
`[L, U)` of the flattened view that contains `idx`, never exceeds the
view, is exactly the ideal window `[idx-nbrBefore, idx+nbrAfter]` when
no clamping is needed, and otherwise shifts instead of shrinking: its
size is always `min(nbrBefore+nbrAfter+1, len)`, so it is full whenever
the view is long enough; the returned relative index is the anchor's
offset `idx - L` inside the window. -/
theorem Citop.C3_select_window_clamps_and_shifts (rows : List Citop.buildRow)
    (key : Citop.buildRowKey) (b a : Int) (idx : Nat)
    (hb : 0 ≤ b) (ha : 0 ≤ a)
    (hres : Citop.resolveFirst (Citop.flattenedRows rows) (Citop.candidateKeys key) = some idx) :
    ∃ L U : Int,
      Citop.Select rows key b a =
        .ok (((Citop.flattenedRows rows).drop L.toNat).take (U - L).toNat,
          ((idx : Int) - L).toNat) ∧
      0 ≤ L ∧ L ≤ (idx : Int) ∧ (idx : Int) < U ∧
      U ≤ ((Citop.flattenedRows rows).length : Int) ∧
      U - L = min (b + a + 1) ((Citop.flattenedRows rows).length : Int) ∧
      (0 ≤ (idx : Int) - b ∧ (idx : Int) + a < ((Citop.flattenedRows rows).length : Int) →
        L = (idx : Int) - b ∧ U = (idx : Int) + a + 1) := by
  have hlt := Citop.resolveFirst_lt_length _ _ _ hres
  have hne : ¬((Citop.flattenedRows rows).length = 0) := by omega
  obtain ⟨L, U, h1, hrest⟩ :=
    Citop.selectWindow_spec (Citop.flattenedRows rows) idx b a hb ha hlt
  refine ⟨L, U, ?_, hrest⟩
  unfold Citop.Select
  rw [if_neg hne, hres]
  show Except.ok (Citop.selectWindow (Citop.flattenedRows rows) idx b a) = _
  rw [h1]

namespace Citop

/-- A childless build row with the given build id and name, for the
concrete witness scenarios. -/
def leafRow (i : Int) (nm : String) : buildRow :=
  .mk { key := ⟨"", i, 0, 0⟩, id := "", type_ := "P", state := "", name := nm,
        pfx := "", startedAt := none, finishedAt := none, updatedAt := none,
        traversable := false, url := "" } []

/-- Ten childless rows: a flattened view of exactly 10 rows. -/
def tenRows : List buildRow :=
  [leafRow 0 "", leafRow 1 "", leafRow 2 "", leafRow 3 "", leafRow 4 "",
   leafRow 5 "", leafRow 6 "", leafRow 7 "", leafRow 8 "", leafRow 9 ""]

end Citop

/-- Witness for C3 at the spec's own example: on a 10-row flattened view,
`Select(key, 2, 2)` anchored at index 8 returns the 5 rows at indices
5..9 with the anchor at relative index 3. -/
theorem Citop.C3_witness :
    Citop.resolveFirst (Citop.flattenedRows Citop.tenRows)
        (Citop.candidateKeys ⟨"", 8, 0, 0⟩) = some 8 ∧
      (∃ L U : Int,
        Citop.Select Citop.tenRows ⟨"", 8, 0, 0⟩ 2 2 =
          .ok (((Citop.flattenedRows Citop.tenRows).drop L.toNat).take (U - L).toNat,
            ((8 : Int) - L).toNat) ∧
        0 ≤ L ∧ L ≤ (8 : Int) ∧ (8 : Int) < U ∧
        U ≤ ((Citop.flattenedRows Citop.tenRows).length : Int) ∧
        U - L = min (2 + 2 + 1) ((Citop.flattenedRows Citop.tenRows).length : Int) ∧
        (0 ≤ (8 : Int) - 2 ∧ (8 : Int) + 2 < ((Citop.flattenedRows Citop.tenRows).length : Int) →
          L = (8 : Int) - 2 ∧ U = (8 : Int) + 2 + 1)) ∧
      Citop.Select Citop.tenRows ⟨"", 8, 0, 0⟩ 2 2 =
        .ok (((Citop.flattenedRows Citop.tenRows).drop 5).take 5, 3) ∧
      (((Citop.flattenedRows Citop.tenRows).drop 5).take 5).length = 5 := by
  refine ⟨by decide, ?_, by decide, by decide⟩
  exact Citop.C3_select_window_clamps_and_shifts Citop.tenRows ⟨"", 8, 0, 0⟩ 2 2 8
    (by decide) (by decide) (by decide)

/-- C10: on an empty flattened view, `Select` returns an empty row
slice, relative index 0 and no error, whatever the key argument — the
emptiness check precedes key resolution, so the not-found error is never
produced on an empty view. -/
theorem Citop.C10_select_empty_view (rows : List Citop.buildRow) (key : Citop.buildRowKey)
    (nbrBefore nbrAfter : Int) (h : Citop.flattenedRows rows = []) :
    Citop.Select rows key nbrBefore nbrAfter = .ok ([], 0) := by
  unfold Citop.Select
  rw [h]
  rfl

/-- Witness for C10: the empty forest with a key that resolves to
nothing still yields `ok ([], 0)`. -/
theorem Citop.C10_witness :
    Citop.flattenedRows [] = [] ∧
      Citop.Select [] ⟨"ghost", 1, 2, 3⟩ 2 2 = .ok ([], 0) :=
  ⟨rfl, Citop.C10_select_empty_view [] ⟨"ghost", 1, 2, 3⟩ 2 2 rfl⟩

/-- C7: on a non-empty flattened view, `Select` resolves its anchor by
trying the key itself, then the key with jobID zeroed (stage-level
parent), then the key with jobID and stageID zeroed (build-level
parent), in that order against `dfsIndex`, using the first that
resolves; when none of the three is present it fails with the
not-found error; and a resolving anchor never produces an error. -/
theorem Citop.C7_select_key_resolution_order (rows : List Citop.buildRow)
    (key : Citop.buildRowKey) (b a : Int)
    (hne : Citop.flattenedRows rows ≠ []) :
    (∀ i, Citop.indexOfKey (Citop.flattenedRows rows) key = some i →
        Citop.resolveFirst (Citop.flattenedRows rows) (Citop.candidateKeys key) = some i) ∧
      (Citop.indexOfKey (Citop.flattenedRows rows) key = none →
        ∀ i, Citop.indexOfKey (Citop.flattenedRows rows) { key with jobID := 0 } = some i →
          Citop.resolveFirst (Citop.flattenedRows rows) (Citop.candidateKeys key) = some i) ∧
      (Citop.indexOfKey (Citop.flattenedRows rows) key = none →
        Citop.indexOfKey (Citop.flattenedRows rows) { key with jobID := 0 } = none →
        ∀ i, Citop.indexOfKey (Citop.flattenedRows rows)
            { key with stageID := 0, jobID := 0 } = some i →
          Citop.resolveFirst (Citop.flattenedRows rows) (Citop.candidateKeys key) = some i) ∧
      (Citop.indexOfKey (Citop.flattenedRows rows) key = none →
        Citop.indexOfKey (Citop.flattenedRows rows) { key with jobID := 0 } = none →
        Citop.indexOfKey (Citop.flattenedRows rows) { key with stageID := 0, jobID := 0 } = none →
        Citop.Select rows key b a = .error .keyNotFound) ∧
      (∀ i, Citop.resolveFirst (Citop.flattenedRows rows) (Citop.candidateKeys key) = some i →
        ∃ out, Citop.Select rows key b a = .ok out) := by
  have hne0 : ¬((Citop.flattenedRows rows).length = 0) := by
    intro h
    exact hne (List.length_eq_zero.mp h)
  simp only [Citop.candidateKeys]
  refine ⟨?_, ?_, ?_, ?_, ?_⟩
  · intro i h1
    exact Citop.resolveFirst_cons_some _ _ _ _ h1
  · intro h1 i h2
    rw [Citop.resolveFirst_cons_none _ _ _ h1]
    exact Citop.resolveFirst_cons_some _ _ _ _ h2
  · intro h1 h2 i h3
    rw [Citop.resolveFirst_cons_none _ _ _ h1, Citop.resolveFirst_cons_none _ _ _ h2]
    exact Citop.resolveFirst_cons_some _ _ _ _ h3
  · intro h1 h2 h3
    have hr : Citop.resolveFirst (Citop.flattenedRows rows)
        [key, { key with jobID := 0 }, { key with stageID := 0, jobID := 0 }] = none := by
      rw [Citop.resolveFirst_cons_none _ _ _ h1, Citop.resolveFirst_cons_none _ _ _ h2,
        Citop.resolveFirst_cons_none _ _ _ h3]
      rfl
    unfold Citop.Select
    rw [if_neg hne0]
    simp only [Citop.candidateKeys]
    rw [hr]
  · intro i hr
    unfold Citop.Select
    rw [if_neg hne0]
    simp only [Citop.candidateKeys]
    rw [hr]
    exact ⟨_, rfl⟩

namespace Citop

/-- One cached job / stage / build for the hidden-anchor and C5
witness scenarios: a build with a single collapsed stage holding a
single job. -/
def wJob : CJob :=
  { id := 3, state := .passed, name := "j", createdAt := none,
    startedAt := none, finishedAt := none, webURL := "" }

def wStage : CStage := { id := 2, name := "s", state := .passed, jobs := [(3, wJob)] }

def wBuild : CBuild :=
  { accountID := "a", id := 1, commitMessage := "m", state := .passed,
    startedAt := none, finishedAt := none, updatedAt := 5, webURL := "",
    jobs := [], stages := [(2, wStage)] }

def hiddenRows : List buildRow := [buildRowFromBuild wBuild]

end Citop

/-- Witness for C7: a job key whose row is hidden under a collapsed
build (the job key and its stage-level parent are absent from the
flattened view) resolves to the build-level parent at index 0, and
`Select` succeeds on it. -/
theorem Citop.C7_witness :
    Citop.flattenedRows Citop.hiddenRows ≠ [] ∧
      Citop.indexOfKey (Citop.flattenedRows Citop.hiddenRows) ⟨"a", 1, 2, 3⟩ = none ∧
      Citop.indexOfKey (Citop.flattenedRows Citop.hiddenRows) ⟨"a", 1, 2, 0⟩ = none ∧
      Citop.indexOfKey (Citop.flattenedRows Citop.hiddenRows) ⟨"a", 1, 0, 0⟩ = some 0 ∧
      Citop.resolveFirst (Citop.flattenedRows Citop.hiddenRows)
        (Citop.candidateKeys ⟨"a", 1, 2, 3⟩) = some 0 := by
  refine ⟨by decide, by decide, by decide, by decide, ?_⟩
  exact (Citop.C7_select_key_resolution_order Citop.hiddenRows ⟨"a", 1, 2, 3⟩ 0 0
    (by decide)).2.2.1 (by decide) (by decide) 0 (by decide)

namespace Citop

/-! ## Lemmas about the circular scan of `NextMatch` -/

theorem modulo_range (x n : Int) (h : 0 < n) : 0 ≤ Modulo x n ∧ Modulo x n < n :=
  ⟨Int.emod_nonneg x (by omega), Int.emod_lt_of_pos x h⟩

theorem nmStep_range (n : Int) (ascending : Bool) (h : 0 < n) (i : Int) :
    0 ≤ nmStep n ascending i ∧ nmStep n ascending i < n := by
  unfold nmStep
  cases ascending <;> simp only [if_true, if_false, Bool.false_eq_true] <;>
    exact modulo_range _ n h

theorem nmStart_range (a n : Int) (ascending : Bool) (h : 0 < n) :
    0 ≤ nmStart a n ascending ∧ nmStart a n ascending < n := by
  unfold nmStart
  cases ascending <;> simp only [if_true, if_false, Bool.false_eq_true] <;>
    exact modulo_range _ n h

theorem scanLoop_none_of_no_match (dfsT : List buildRow) (search : String) (stop : Int)
    (step : Int → Int)
    (hstep : ∀ i : Int, 0 ≤ i → i < dfsT.length → 0 ≤ step i ∧ step i < dfsT.length)
    (hno : ∀ j : Nat, j < dfsT.length → (j : Int) ≠ stop →
      rowMatches search (dfsT.getD j default) = false) :
    ∀ fuel (i : Int), 0 ≤ i → i < dfsT.length →
      scanLoop dfsT search stop step fuel i = none := by
  intro fuel
  induction fuel with
  | zero => intro i _ _; rfl
  | succ fuel ih =>
    intro i h0 hlen
    unfold scanLoop
    by_cases hs : i = stop
    · rw [if_pos hs]
    · rw [if_neg hs]
      have htn : ((i.toNat : Nat) : Int) = i := Int.toNat_of_nonneg h0
      have hj : rowMatches search (dfsT.getD i.toNat default) = false := by
        apply hno i.toNat
        · omega
        · rw [htn]; exact hs
      rw [hj]
      simp only [Bool.false_eq_true, if_false]
      obtain ⟨hb1, hb2⟩ := hstep i h0 hlen
      exact ih (step i) hb1 hb2

theorem scanLoop_some_props (dfsT : List buildRow) (search : String) (stop : Int)
    (step : Int → Int)
    (hstep : ∀ i : Int, 0 ≤ i → i < dfsT.length → 0 ≤ step i ∧ step i < dfsT.length) :
    ∀ fuel (i : Int), 0 ≤ i → i < dfsT.length →
      ∀ j, scanLoop dfsT search stop step fuel i = some j →
        0 ≤ j ∧ j < dfsT.length ∧ j ≠ stop ∧
          rowMatches search (dfsT.getD j.toNat default) = true := by
  intro fuel
  induction fuel with
  | zero => intro i _ _ j h; cases h
  | succ fuel ih =>
    intro i h0 hlen j h
    unfold scanLoop at h
    by_cases hs : i = stop
    · rw [if_pos hs] at h; cases h
    · rw [if_neg hs] at h
      by_cases hm : rowMatches search (dfsT.getD i.toNat default) = true
      · rw [if_pos hm] at h
        cases h
        exact ⟨h0, hlen, hs, hm⟩
      · rw [if_neg hm] at h
        obtain ⟨hb1, hb2⟩ := hstep i h0 hlen
        exact ih (step i) hb1 hb2 j h

end Citop

/-- C8: `NextMatch` scans the flattened view circularly, starting just
past the active row, and only ever accepts a row, different from the
active position, one of whose displayed column values contains the
search string; when no row other than the active one matches anywhere
in the view, it returns the distinguished no-match condition
(`ErrNoMatchFound`), not a generic error.  (The concrete wrap-around
behavior — a string present only at the row immediately before the
active row is found ascending after wrapping through the whole list —
is exhibited by the witness.) -/
theorem Citop.C8_next_match_circular_scan (rows : List Citop.buildRow)
    (top bottom active : Citop.buildRowKey) (search : String) (ascending : Bool) :
    ((∀ j : Nat, j < (Citop.flattenedRows rows).length →
        (j : Int) ≠ Citop.dfsIdx (Citop.flattenedRows rows) active →
        Citop.rowMatches search ((Citop.flattenedRows rows).getD j default) = false) →
      Citop.NextMatch rows top bottom active search ascending = .error .noMatchFound) ∧
    (∀ out, Citop.NextMatch rows top bottom active search ascending = .ok out →
      ∃ i : Int, 0 ≤ i ∧ i < (Citop.flattenedRows rows).length ∧
        i ≠ Citop.dfsIdx (Citop.flattenedRows rows) active ∧
        Citop.rowMatches search ((Citop.flattenedRows rows).getD i.toNat default) = true) := by
  constructor
  · intro hno
    simp only [Citop.NextMatch]
    by_cases hn : (Citop.flattenedRows rows).length = 0
    · have hz : Citop.scanLoop (Citop.flattenedRows rows) search
          (Citop.dfsIdx (Citop.flattenedRows rows) active)
          (Citop.nmStep ((Citop.flattenedRows rows).length : Int) ascending)
          (Citop.flattenedRows rows).length
          (Citop.nmStart (Citop.dfsIdx (Citop.flattenedRows rows) active)
            ((Citop.flattenedRows rows).length : Int) ascending) = none := by
        rw [hn]
        rfl
      rw [hz]
    · have hpos : (0 : Int) < ((Citop.flattenedRows rows).length : Int) := by omega
      obtain ⟨hs0, hs1⟩ := Citop.nmStart_range
        (Citop.dfsIdx (Citop.flattenedRows rows) active)
        ((Citop.flattenedRows rows).length : Int) ascending hpos
      have hz := Citop.scanLoop_none_of_no_match (Citop.flattenedRows rows) search
        (Citop.dfsIdx (Citop.flattenedRows rows) active)
        (Citop.nmStep ((Citop.flattenedRows rows).length : Int) ascending)
        (fun i hi0 hi1 => Citop.nmStep_range _ ascending hpos i)
        hno
        (Citop.flattenedRows rows).length
        (Citop.nmStart (Citop.dfsIdx (Citop.flattenedRows rows) active)
          ((Citop.flattenedRows rows).length : Int) ascending)
        hs0 hs1
      rw [hz]
  · intro out hok
    simp only [Citop.NextMatch] at hok
    by_cases hn : (Citop.flattenedRows rows).length = 0
    · have hz : Citop.scanLoop (Citop.flattenedRows rows) search
          (Citop.dfsIdx (Citop.flattenedRows rows) active)
          (Citop.nmStep ((Citop.flattenedRows rows).length : Int) ascending)
          (Citop.flattenedRows rows).length
          (Citop.nmStart (Citop.dfsIdx (Citop.flattenedRows rows) active)
            ((Citop.flattenedRows rows).length : Int) ascending) = none := by
        rw [hn]
        rfl
      rw [hz] at hok
      cases hok
    · have hpos : (0 : Int) < ((Citop.flattenedRows rows).length : Int) := by omega
      obtain ⟨hs0, hs1⟩ := Citop.nmStart_range
        (Citop.dfsIdx (Citop.flattenedRows rows) active)
        ((Citop.flattenedRows rows).length : Int) ascending hpos
      cases hscan : Citop.scanLoop (Citop.flattenedRows rows) search
          (Citop.dfsIdx (Citop.flattenedRows rows) active)
          (Citop.nmStep ((Citop.flattenedRows rows).length : Int) ascending)
          (Citop.flattenedRows rows).length
          (Citop.nmStart (Citop.dfsIdx (Citop.flattenedRows rows) active)
            ((Citop.flattenedRows rows).length : Int) ascending) with
      | none => rw [hscan] at hok; cases hok
      | some i =>
        obtain ⟨h1, h2, h3, h4⟩ := Citop.scanLoop_some_props (Citop.flattenedRows rows) search
          (Citop.dfsIdx (Citop.flattenedRows rows) active)
          (Citop.nmStep ((Citop.flattenedRows rows).length : Int) ascending)
          (fun i hi0 hi1 => Citop.nmStep_range _ ascending hpos i)
          (Citop.flattenedRows rows).length
          (Citop.nmStart (Citop.dfsIdx (Citop.flattenedRows rows) active)
            ((Citop.flattenedRows rows).length : Int) ascending)
          hs0 hs1 i hscan
        exact ⟨i, h1, h2, h3, h4⟩

namespace Citop

/-- Ten childless rows with a name match only at index 7, for the
ascending wrap-around scenario around active index 8. -/
def nmRows : List buildRow :=
  [leafRow 0 "", leafRow 1 "", leafRow 2 "", leafRow 3 "", leafRow 4 "",
   leafRow 5 "", leafRow 6 "", leafRow 7 "z", leafRow 8 "", leafRow 9 ""]

/-- Ten childless rows with name matches at indices 2 and 4: scanning
ascending from active index 5 wraps and reaches index 2 first. -/
def twoMatchRows : List buildRow :=
  [leafRow 0 "", leafRow 1 "", leafRow 2 "z", leafRow 3 "", leafRow 4 "z",
   leafRow 5 "", leafRow 6 "", leafRow 7 "", leafRow 8 "", leafRow 9 ""]

end Citop

/-- Witness for C8: (no-match) a string occurring nowhere yields the
distinguished no-match condition; (wrap-around) a string present only
at the row immediately before the active row (index 7, active 8) is
found ascending after wrapping through the whole list, and the returned
window [6..9] contains it at relative index 1; (scan order) with
matches at indices 2 and 4 and active 5, the ascending scan wraps and
accepts index 2, the first in scan order; and the soundness part of C8
recovers a matching off-active position from the successful search. -/
theorem Citop.C8_witness :
    Citop.NextMatch Citop.nmRows ⟨"", 6, 0, 0⟩ ⟨"", 9, 0, 0⟩ ⟨"", 8, 0, 0⟩ "q" true =
        .error .noMatchFound ∧
      Citop.NextMatch Citop.nmRows ⟨"", 6, 0, 0⟩ ⟨"", 9, 0, 0⟩ ⟨"", 8, 0, 0⟩ "z" true =
        .ok (((Citop.flattenedRows Citop.nmRows).drop 6).take 4, 1) ∧
      Citop.rowMatches "z" ((Citop.flattenedRows Citop.nmRows).getD 7 default) = true ∧
      Citop.NextMatch Citop.twoMatchRows ⟨"", 5, 0, 0⟩ ⟨"", 5, 0, 0⟩ ⟨"", 5, 0, 0⟩ "z" true =
        .ok (((Citop.flattenedRows Citop.twoMatchRows).drop 2).take 1, 0) ∧
      (∃ i : Int, 0 ≤ i ∧ i < (Citop.flattenedRows Citop.nmRows).length ∧
        i ≠ Citop.dfsIdx (Citop.flattenedRows Citop.nmRows) ⟨"", 8, 0, 0⟩ ∧
        Citop.rowMatches "z" ((Citop.flattenedRows Citop.nmRows).getD i.toNat default) = true) := by
  refine ⟨?_, by decide, by decide, by decide, ?_⟩
  · exact (Citop.C8_next_match_circular_scan Citop.nmRows ⟨"", 6, 0, 0⟩ ⟨"", 9, 0, 0⟩
      ⟨"", 8, 0, 0⟩ "q" true).1 (by decide)
  · exact (Citop.C8_next_match_circular_scan Citop.nmRows ⟨"", 6, 0, 0⟩ ⟨"", 9, 0, 0⟩
      ⟨"", 8, 0, 0⟩ "z" true).2
      (((Citop.flattenedRows Citop.nmRows).drop 6).take 4, 1) (by decide)

/-- C4: when the scan of `NextMatch` finds a match at flattened position
`i`, the previous window size is `nbrRows = dfsIndex[bottom] -
dfsIndex[top] + 1`; for a match after the active row the new bottom is
`max(old bottom, i)` and the new top `max(old top, newBottom - nbrRows +
1)`; for a match before the active row, symmetrically, the new top is
`min(old top, i)` and the new bottom `min(old bottom, newTop + nbrRows -
1)`; and the result is exactly `Select(matchKey, i - newTop, newBottom -
i)` — its rows together with the match's relative index. -/
theorem Citop.C4_next_match_window_formulas (rows : List Citop.buildRow)
    (top bottom active : Citop.buildRowKey) (search : String) (ascending : Bool) (i : Int)
    (hscan : Citop.scanLoop (Citop.flattenedRows rows) search
      (Citop.dfsIdx (Citop.flattenedRows rows) active)
      (Citop.nmStep ((Citop.flattenedRows rows).length : Int) ascending)
      (Citop.flattenedRows rows).length
      (Citop.nmStart (Citop.dfsIdx (Citop.flattenedRows rows) active)
        ((Citop.flattenedRows rows).length : Int) ascending) = some i) :
    Citop.NextMatch rows top bottom active search ascending =
      (let dfsT := Citop.flattenedRows rows
      let nbrRows := Citop.dfsIdx dfsT bottom - Citop.dfsIdx dfsT top + 1
      if i > Citop.dfsIdx dfsT active then
        let newBottom := max (Citop.dfsIdx dfsT bottom) i
        let newTop := max (Citop.dfsIdx dfsT top) (newBottom - nbrRows + 1)
        Citop.Select rows (dfsT.getD i.toNat default).key (i - newTop) (newBottom - i)
      else
        let newTop := min (Citop.dfsIdx dfsT top) i
        let newBottom := min (Citop.dfsIdx dfsT bottom) (newTop + nbrRows - 1)
        Citop.Select rows (dfsT.getD i.toNat default).key (i - newTop) (newBottom - i)) := by
  simp only [Citop.NextMatch]
  rw [hscan]
  show Citop.nextMatchResult rows top bottom active i = _
  simp only [Citop.nextMatchResult, Citop.MaxInt, Citop.MinInt]

/-- Witness for C4 at the wrap-around scenario: the scan finds position
7 (before the active row 8), and `NextMatch` equals
`Select(matchKey, i - newTop, newBottom - i)` with the min/min
formulas. -/
theorem Citop.C4_witness :
    Citop.scanLoop (Citop.flattenedRows Citop.nmRows) "z"
        (Citop.dfsIdx (Citop.flattenedRows Citop.nmRows) ⟨"", 8, 0, 0⟩)
        (Citop.nmStep ((Citop.flattenedRows Citop.nmRows).length : Int) true)
        (Citop.flattenedRows Citop.nmRows).length
        (Citop.nmStart (Citop.dfsIdx (Citop.flattenedRows Citop.nmRows) ⟨"", 8, 0, 0⟩)
          ((Citop.flattenedRows Citop.nmRows).length : Int) true) = some 7 ∧
      Citop.NextMatch Citop.nmRows ⟨"", 6, 0, 0⟩ ⟨"", 9, 0, 0⟩ ⟨"", 8, 0, 0⟩ "z" true =
        (let dfsT := Citop.flattenedRows Citop.nmRows
        let nbrRows := Citop.dfsIdx dfsT ⟨"", 9, 0, 0⟩ - Citop.dfsIdx dfsT ⟨"", 6, 0, 0⟩ + 1
        if (7 : Int) > Citop.dfsIdx dfsT ⟨"", 8, 0, 0⟩ then
          let newBottom := max (Citop.dfsIdx dfsT ⟨"", 9, 0, 0⟩) 7
          let newTop := max (Citop.dfsIdx dfsT ⟨"", 6, 0, 0⟩) (newBottom - nbrRows + 1)
          Citop.Select Citop.nmRows (dfsT.getD (7 : Int).toNat default).key
            (7 - newTop) (newBottom - 7)
        else
          let newTop := min (Citop.dfsIdx dfsT ⟨"", 6, 0, 0⟩) 7
          let newBottom := min (Citop.dfsIdx dfsT ⟨"", 9, 0, 0⟩) (newTop + nbrRows - 1)
          Citop.Select Citop.nmRows (dfsT.getD (7 : Int).toNat default).key
            (7 - newTop) (newBottom - 7)) := by
  refine ⟨by decide, ?_⟩
  exact Citop.C4_next_match_window_formulas Citop.nmRows ⟨"", 6, 0, 0⟩ ⟨"", 9, 0, 0⟩
    ⟨"", 8, 0, 0⟩ "z" true 7 (by decide)

namespace Citop

/-! ## Lemmas about `FetchRows` and traversable-flag restoration -/

mutual
theorem dfs_restoreRow (tr : List buildRowKey) : ∀ r : buildRow,
    depthFirstTraversal true (restoreRow tr r) =
      (depthFirstTraversal true r).map (restoreRow tr)
  | .mk i cs => by
    simp only [restoreRow, depthFirstTraversal, Bool.true_or, if_true, List.map_cons]
    rw [dfsList_restoreRowList tr cs]
theorem dfsList_restoreRowList (tr : List buildRowKey) : ∀ rs : List buildRow,
    depthFirstTraversalList true (restoreRowList tr rs) =
      (depthFirstTraversalList true rs).map (restoreRow tr)
  | [] => rfl
  | r :: rs => by
    simp only [restoreRowList, depthFirstTraversalList, List.map_append]
    rw [dfs_restoreRow tr r, dfsList_restoreRowList tr rs]
end

theorem restoreRow_key (tr : List buildRowKey) (r : buildRow) :
    (restoreRow tr r).key = r.key := by
  cases r with
  | mk i cs =>
    simp only [restoreRow, buildRow.key, buildRow.info]
    split <;> rfl

theorem restoreRow_flag (tr : List buildRowKey) (r : buildRow) :
    (restoreRow tr r).Traversable =
      if tr.contains r.key then true else r.Traversable := by
  cases r with
  | mk i cs =>
    simp only [restoreRow, buildRow.Traversable, buildRow.key, buildRow.info]
    split <;> rfl

theorem dfsList_append (rs1 rs2 : List buildRow) :
    depthFirstTraversalList true (rs1 ++ rs2) =
      depthFirstTraversalList true rs1 ++ depthFirstTraversalList true rs2 := by
  induction rs1 with
  | nil => rfl
  | cons r rs ih =>
    show depthFirstTraversal true r ++ depthFirstTraversalList true (rs ++ rs2) =
      depthFirstTraversal true r ++ depthFirstTraversalList true rs ++
        depthFirstTraversalList true rs2
    rw [ih, ← List.append_assoc]

theorem mem_dfsList (x : buildRow) (rs : List buildRow) :
    x ∈ depthFirstTraversalList true rs ↔
      ∃ root ∈ rs, x ∈ depthFirstTraversal true root := by
  induction rs with
  | nil => simp [depthFirstTraversalList]
  | cons r rs ih =>
    simp only [depthFirstTraversalList, List.mem_append, ih, List.mem_cons]
    constructor
    · rintro (h | ⟨root, hr, hx⟩)
      · exact ⟨r, Or.inl rfl, h⟩
      · exact ⟨root, Or.inr hr, hx⟩
    · rintro ⟨root, rfl | hr, hx⟩
      · exact Or.inl hx
      · exact Or.inr ⟨root, hr, hx⟩

theorem job_rows_flag (acc : String) (bid sid : Int) (js : List CJob) :
    ∀ r ∈ depthFirstTraversalList true (js.map (buildRowFromJob acc bid sid)),
      r.Traversable = false := by
  induction js with
  | nil => intro r hr; simp [depthFirstTraversalList] at hr
  | cons j js ih =>
    intro r hr
    simp only [List.map_cons, depthFirstTraversalList, List.mem_append] at hr
    rcases hr with hr | hr
    · simp only [buildRowFromJob, depthFirstTraversal, depthFirstTraversalList,
        Bool.true_or, if_true, List.mem_singleton] at hr
      subst hr
      rfl
    · exact ih r hr

theorem stage_rows_flag (acc : String) (bid : Int) (ss : List CStage) :
    ∀ r ∈ depthFirstTraversalList true (ss.map (buildRowFromStage acc bid)),
      r.Traversable = false := by
  induction ss with
  | nil => intro r hr; simp [depthFirstTraversalList] at hr
  | cons s ss ih =>
    intro r hr
    simp only [List.map_cons, depthFirstTraversalList, List.mem_append] at hr
    rcases hr with hr | hr
    · simp only [buildRowFromStage, depthFirstTraversal, Bool.true_or, if_true,
        List.mem_cons] at hr
      rcases hr with rfl | hr
      · rfl
      · exact job_rows_flag acc bid s.id (sortedValues s.jobs) r hr
    · exact ih r hr

end Citop

namespace Citop

theorem build_row_flag (b : CBuild) :
    ∀ r ∈ depthFirstTraversal true (buildRowFromBuild b), r.Traversable = false := by
  intro r hr
  simp only [buildRowFromBuild, depthFirstTraversal, Bool.true_or, if_true,
    List.mem_cons] at hr
  rcases hr with rfl | hr
  · rfl
  · rw [dfsList_append] at hr
    rcases List.mem_append.mp hr with hr | hr
    · exact job_rows_flag b.accountID b.id 0 (sortedValues b.jobs) r hr
    · exact stage_rows_flag b.accountID b.id (sortedValues b.stages) r hr

theorem mem_insertRowSorted (r x : buildRow) (l : List buildRow) :
    x ∈ insertRowSorted r l ↔ x = r ∨ x ∈ l := by
  induction l with
  | nil => simp [insertRowSorted]
  | cons y ys ih =>
    simp only [insertRowSorted]
    split
    · simp only [List.mem_cons, ih]
      tauto
    · simp only [List.mem_cons]

theorem mem_sortRows (x : buildRow) (l : List buildRow) :
    x ∈ sortRows l ↔ x ∈ l := by
  induction l with
  | nil => simp [sortRows]
  | cons r rs ih =>
    simp only [sortRows, mem_insertRowSorted, ih, List.mem_cons]

end Citop

/-- C5: traversable flags survive a `FetchRows` rebuild by key matching —
every node of the rebuilt forest carries the flag recorded (as true) for
its key from the old forest's full traversal: it is traversable exactly
when its key was collected among the old forest's traversable keys, and
fresh nodes of keys never recorded stay collapsed. -/
theorem Citop.C5_traversable_survives_rebuild (oldRows : List Citop.buildRow)
    (builds : List Citop.CBuild) (k : Citop.buildRowKey) (b : Bool)
    (h : Citop.flagAt (Citop.FetchRows oldRows builds) k = some b) :
    b = (Citop.collectTraversables oldRows).contains k := by
  unfold Citop.flagAt Citop.FetchRows at h
  rw [Citop.dfsList_restoreRowList, List.findSome?_map] at h
  obtain ⟨r, hr, hfr⟩ := List.exists_of_findSome?_eq_some h
  simp only [Function.comp] at hfr
  by_cases hk : (Citop.restoreRow (Citop.collectTraversables oldRows) r).key = k
  · rw [if_pos hk] at hfr
    have hb : (Citop.restoreRow (Citop.collectTraversables oldRows) r).Traversable = b :=
      Option.some.inj hfr
    have hrk : r.key = k := by rw [← Citop.restoreRow_key (Citop.collectTraversables oldRows) r]; exact hk
    have hflag : r.Traversable = false := by
      obtain ⟨root, hroot, hmem⟩ := (Citop.mem_dfsList r _).mp hr
      rw [Citop.mem_sortRows] at hroot
      obtain ⟨bld, hbld, rfl⟩ := List.mem_map.mp hroot
      exact Citop.build_row_flag bld r hmem
    rw [Citop.restoreRow_flag, hflag, hrk] at hb
    cases hcon : (Citop.collectTraversables oldRows).contains k
    · rw [hcon] at hb
      simp at hb
      exact hb
    · rw [hcon] at hb
      simp at hb
      exact hb
  · rw [if_neg hk] at hfr
    cases hfr

/-- Witness for C5 at the spec's key-stability scenario: build the rows
once from a one-build cache, toggle the stage node's traversable flag to
true, rebuild with `FetchRows` over the identical cache content — the
stage node is still traversable, and its flag equals the recorded-key
membership the theorem predicts. -/
theorem Citop.C5_witness :
    Citop.flagAt
        (Citop.FetchRows
          (Citop.setTraversableList ⟨"a", 1, 2, 0⟩ true (Citop.FetchRows [] [Citop.wBuild]))
          [Citop.wBuild]) ⟨"a", 1, 2, 0⟩ = some true ∧
      true =
        (Citop.collectTraversables
          (Citop.setTraversableList ⟨"a", 1, 2, 0⟩ true
            (Citop.FetchRows [] [Citop.wBuild]))).contains ⟨"a", 1, 2, 0⟩ :=
  ⟨by decide,
    Citop.C5_traversable_survives_rebuild
      (Citop.setTraversableList ⟨"a", 1, 2, 0⟩ true (Citop.FetchRows [] [Citop.wBuild]))
      [Citop.wBuild] ⟨"a", 1, 2, 0⟩ true (by decide)⟩

namespace Citop

/-! ## Lemmas about `WriteToDirectory` -/

mutual
theorem dfs_setTraversable (k : buildRowKey) (v : Bool) : ∀ r : buildRow,
    depthFirstTraversal true (setTraversable k v r) =
      (depthFirstTraversal true r).map (setTraversable k v)
  | .mk i cs => by
    simp only [setTraversable, depthFirstTraversal, Bool.true_or, if_true, List.map_cons]
    rw [dfsList_setTraversableList k v cs]
theorem dfsList_setTraversableList (k : buildRowKey) (v : Bool) : ∀ rs : List buildRow,
    depthFirstTraversalList true (setTraversableList k v rs) =
      (depthFirstTraversalList true rs).map (setTraversable k v)
  | [] => rfl
  | r :: rs => by
    simp only [setTraversableList, depthFirstTraversalList, List.map_append]
    rw [dfs_setTraversable k v r, dfsList_setTraversableList k v rs]
end

/-- Setting a traversable flag never changes what the job-collection
loop of `WriteToDirectory` extracts: visibility state does not affect
the exported jobs. -/
theorem collectJobKeys_setTraversable (k : buildRowKey) (v : Bool) (root : buildRow) :
    collectJobKeys (setTraversable k v root) = collectJobKeys root := by
  unfold collectJobKeys
  rw [dfs_setTraversable, List.filterMap_map]
  have hfun : ((fun r : buildRow =>
      if r.info.type_ = "J" then
        some (⟨r.key.accountID, r.key.buildID, r.key.stageID, r.key.jobID⟩ : JobKey)
      else none) ∘ setTraversable k v) =
      (fun r : buildRow =>
        if r.info.type_ = "J" then
          some (⟨r.key.accountID, r.key.buildID, r.key.stageID, r.key.jobID⟩ : JobKey)
        else none) := by
    funext r
    cases r with
    | mk i cs =>
      simp only [Function.comp, setTraversable, buildRow.key, buildRow.info]
      split <;> rfl
  rw [hfun]

end Citop

/-- C9: when the key resolves in the tree index, `WriteToDirectory`
collects the leaf jobs of the subtree by full traversal — unaffected by
any traversable flag — resolves them against the cache, creates exactly
one destination file per collected job, partitions them by currently
cached status into active (`IsActive`, i.e. Pending/Running) and
finished, fails the whole call when some finished job's log fetch
fails, and otherwise succeeds with a deferred streaming action that is
non-absent if and only if at least one collected job is active. -/
theorem Citop.C9_write_to_directory_partitions (cache : List Citop.CBuild)
    (rows : List Citop.buildRow) (logOk : Citop.CJob → Bool)
    (key : Citop.buildRowKey) (build : Citop.buildRow)
    (h : Citop.treeIndexLookup rows key = some build) :
    (∀ k2 v, Citop.collectJobKeys (Citop.setTraversable k2 v build) =
        Citop.collectJobKeys build) ∧
      ((Citop.FetchJobs cache (Citop.collectJobKeys build)).map Citop.jobPath).length =
        (Citop.FetchJobs cache (Citop.collectJobKeys build)).length ∧
      (((Citop.FetchJobs cache (Citop.collectJobKeys build)).filter
            fun j => !j.state.IsActive).all logOk = true →
        Citop.WriteToDirectory cache rows logOk key =
          .ok ((Citop.FetchJobs cache (Citop.collectJobKeys build)).map Citop.jobPath)
            (!((Citop.FetchJobs cache (Citop.collectJobKeys build)).filter
              fun j => j.state.IsActive).isEmpty)) ∧
      ((!((Citop.FetchJobs cache (Citop.collectJobKeys build)).filter
            fun j => j.state.IsActive).isEmpty) = true ↔
        ∃ j ∈ Citop.FetchJobs cache (Citop.collectJobKeys build), j.state.IsActive = true) ∧
      (((Citop.FetchJobs cache (Citop.collectJobKeys build)).filter
            fun j => !j.state.IsActive).all logOk = false →
        Citop.WriteToDirectory cache rows logOk key = .logError) := by
  refine ⟨fun k2 v => Citop.collectJobKeys_setTraversable k2 v build, List.length_map _ _, ?_, ?_, ?_⟩
  · intro hall
    simp only [Citop.WriteToDirectory]
    rw [h]
    show (if ((Citop.FetchJobs cache (Citop.collectJobKeys build)).filter
        fun j => !j.state.IsActive).all logOk = true then _ else _) = _
    rw [if_pos hall]
  · constructor
    · intro hne
      have : ((Citop.FetchJobs cache (Citop.collectJobKeys build)).filter
          fun j => j.state.IsActive) ≠ [] := by
        intro hnil
        rw [hnil] at hne
        cases hne
      obtain ⟨j, hj⟩ := List.exists_mem_of_ne_nil _ this
      have hj2 := List.mem_filter.mp hj
      exact ⟨j, hj2.1, hj2.2⟩
    · rintro ⟨j, hj, hact⟩
      have : j ∈ (Citop.FetchJobs cache (Citop.collectJobKeys build)).filter
          fun j => j.state.IsActive := List.mem_filter.mpr ⟨hj, hact⟩
      cases hfil : (Citop.FetchJobs cache (Citop.collectJobKeys build)).filter
          (fun j => j.state.IsActive) with
      | nil => rw [hfil] at this; cases this
      | cons x xs => rfl
  · intro hall
    simp only [Citop.WriteToDirectory]
    rw [h]
    show (if ((Citop.FetchJobs cache (Citop.collectJobKeys build)).filter
        fun j => !j.state.IsActive).all logOk = true then _ else _) = _
    rw [hall]
    rfl

namespace Citop

/-- Two finished jobs and one active job for the log-export scenario. -/
def wJobF1 : CJob :=
  { id := 1, state := .passed, name := "f1", createdAt := none,
    startedAt := none, finishedAt := none, webURL := "" }

def wJobF2 : CJob :=
  { id := 2, state := .failed, name := "f2", createdAt := none,
    startedAt := none, finishedAt := none, webURL := "" }

def wJobA : CJob :=
  { id := 3, state := .running, name := "a1", createdAt := none,
    startedAt := none, finishedAt := none, webURL := "" }

/-- A build holding the three jobs directly. -/
def wBuild9 : CBuild :=
  { accountID := "a", id := 7, commitMessage := "m", state := .running,
    startedAt := none, finishedAt := none, updatedAt := 5, webURL := "",
    jobs := [(1, wJobF1), (2, wJobF2), (3, wJobA)], stages := [] }

def rows9 : List buildRow := [buildRowFromBuild wBuild9]

end Citop

/-- Witness for C9 at the spec's scenario, a build with 2 finished and
1 active job: three files are created (one per job), the call succeeds
with a present streaming action when every finished-job fetch succeeds —
present exactly because one job is active — and the whole call fails
when the fetch of finished job 2 fails. -/
theorem Citop.C9_witness :
    Citop.treeIndexLookup Citop.rows9 ⟨"a", 7, 0, 0⟩ =
        some (Citop.buildRowFromBuild Citop.wBuild9) ∧
      Citop.WriteToDirectory [Citop.wBuild9] Citop.rows9 (fun _ => true) ⟨"a", 7, 0, 0⟩ =
        .ok ((Citop.FetchJobs [Citop.wBuild9]
            (Citop.collectJobKeys (Citop.buildRowFromBuild Citop.wBuild9))).map Citop.jobPath)
          (!((Citop.FetchJobs [Citop.wBuild9]
            (Citop.collectJobKeys (Citop.buildRowFromBuild Citop.wBuild9))).filter
              fun j => j.state.IsActive).isEmpty) ∧
      (Citop.FetchJobs [Citop.wBuild9]
          (Citop.collectJobKeys (Citop.buildRowFromBuild Citop.wBuild9))).map Citop.jobPath =
        ["job_1_.log", "job_2_.log", "job_3_.log"] ∧
      (!((Citop.FetchJobs [Citop.wBuild9]
          (Citop.collectJobKeys (Citop.buildRowFromBuild Citop.wBuild9))).filter
            fun j => j.state.IsActive).isEmpty) = true ∧
      Citop.WriteToDirectory [Citop.wBuild9] Citop.rows9
        (fun j => j.id != 2) ⟨"a", 7, 0, 0⟩ = .logError := by
  refine ⟨by rfl, ?_, by decide, by decide, ?_⟩
  · exact (Citop.C9_write_to_directory_partitions [Citop.wBuild9] Citop.rows9
      (fun _ => true) ⟨"a", 7, 0, 0⟩ (Citop.buildRowFromBuild Citop.wBuild9)
      (by rfl)).2.2.1 (by decide)
  · exact (Citop.C9_write_to_directory_partitions [Citop.wBuild9] Citop.rows9
      (fun j => j.id != 2) ⟨"a", 7, 0, 0⟩ (Citop.buildRowFromBuild Citop.wBuild9)
      (by rfl)).2.2.2.2 (by decide)
